import Mathlib

/-!
Shallow embedding of the juice network core (`src/network.rs`, `src/weight.rs`)
together with the narrow slice of the vendored collenchyma interface the core
uses (the BLAS `axpy` update and device synchronization).  `f32` values are
modelled as `ℚ`; a reference-counted tensor handle (`ArcLock<SharedTensor<f32>>`)
is modelled as an index into an explicit heap of buffers, so that cloning a
handle is copying the index: two equal indices alias the same storage and
distinct indices never do, and no clone ever copies data.
-/

namespace Juice

/-! ### weight.rs : dimension-check modes, weight configuration, fillers -/

/-- Mirrors `DimCheckMode` from `weight.rs`: the behaviour of shared-weight
dimension checking. -/
inductive DimCheckMode
  | Strict
  | Permissive
  deriving DecidableEq

/-- Mirrors `FillerType` from `weight.rs`: the (currently single-variant)
closed set of weight initializer policies. -/
inductive FillerType
  | Constant (value : ℚ)
  deriving DecidableEq

/-- Mirrors `WeightConfig` from `weight.rs`. -/
structure WeightConfig where
  name : String
  share_mode : DimCheckMode
  lr_mult : Option ℚ
  decay_mult : Option ℚ
  filler : Option FillerType
  deriving DecidableEq

/-- Mirrors the external phloem `Blob` as consumed by `check_dimensions`: a
shaped numeric container of which only the shape is inspected there. -/
structure Blob where
  shape : List Nat
  deriving DecidableEq

/-- Mirrors `Blob::size()`: the element count, the product of the dimensions. -/
def Blob.size (b : Blob) : Nat := b.shape.prod

/-- Mirrors `Blob::shape_string()`: a display form of the shape. -/
def Blob.shape_string (b : Blob) : String := toString b.shape

/-- Mirrors `WeightConfig::check_dimensions` from `weight.rs` (the multi-line
whitespace and quote punctuation of the source format strings are collapsed;
the text is otherwise the source's). -/
def WeightConfig.check_dimensions (cfg : WeightConfig) (blob_one blob_two : Blob)
    (param_name owner_name layer_name : String) : Except String Unit :=
  match cfg.share_mode with
  | DimCheckMode.Permissive =>
    if blob_one.size ≠ blob_two.size then
      Except.error ("Cannot share weight " ++ param_name ++ " owned by layer " ++
        owner_name ++ " with layer " ++ layer_name ++ "; count mismatch. " ++
        "Owner layer weight shape is " ++ blob_two.shape_string ++ "; " ++
        "Sharing layer weight shape is " ++ blob_one.shape_string)
    else Except.ok ()
  | DimCheckMode.Strict =>
    if blob_one.shape ≠ blob_two.shape then
      Except.error ("Cannot share weight " ++ param_name ++ " owned by layer " ++
        owner_name ++ " with layer " ++ layer_name ++ "; shape mismatch. " ++
        "Owner layer weight shape is " ++ blob_two.shape_string ++ "; " ++
        "Sharing layer expects weight shape " ++ blob_one.shape_string)
    else Except.ok ()

/-! ### The collenchyma `SharedTensor` device model (for the filler) -/

/-- Device handles of the vendored collenchyma backend. -/
abbrev Device := Nat

/-- The native (host) backend's device, `util::native_backend().device()`. -/
def native_device : Device := 0

/-- Mirrors the external `SharedTensor<f32>` as used by `fill_constant`: a
shape (`desc`), one memory copy per device it has been added to (collenchyma
keeps a device-to-copy map, modelled as a function), and the device holding
the most recent data (`latest_device`). -/
structure SharedTensor where
  desc : List Nat
  copies : Device → Option (List ℚ)
  latest_device : Device

/-- Mirrors `SharedTensor::add_device`: allocates a copy on `d` unless one
exists (fresh memory is uninitialized; its content, never read before being
overwritten by a sync, is modelled as zeros).  The `Err` returned on an
already-present device is ignored by `fill_constant`. -/
def SharedTensor.add_device (t : SharedTensor) (d : Device) : SharedTensor :=
  match t.copies d with
  | some _ => t
  | none =>
    { t with copies := fun e => if e = d then some (List.replicate t.desc.prod 0) else t.copies e }

/-- Mirrors `SharedTensor::sync(d)`: copies the latest copy onto device `d`
and marks `d` as latest; fails (an `unwrap` panic at every call site in this
crate) when either copy is missing. -/
def SharedTensor.sync (t : SharedTensor) (d : Device) : Option SharedTensor :=
  match t.copies t.latest_device, t.copies d with
  | some src, some _ =>
    some { t with copies := fun e => if e = d then some src else t.copies e, latest_device := d }
  | _, _ => none

/-- The tensor's elements as observable at its current residency. -/
def SharedTensor.read (t : SharedTensor) : List ℚ :=
  (t.copies t.latest_device).getD []

/-- Mirrors `FillerType::fill_constant` from `weight.rs`: remember the current
residency (`latest_device`), add and sync a native-device copy, overwrite every
element of the native copy with `value`, then sync back to the remembered
device. -/
def FillerType.fill_constant (weight : SharedTensor) (value : ℚ) : Option SharedTensor :=
  match (weight.add_device native_device).sync native_device with
  | none => none
  | some w2 =>
    SharedTensor.sync
      { w2 with copies := fun e =>
          if e = native_device then
            (w2.copies native_device).map (fun l => l.map (fun _ => value))
          else w2.copies e }
      weight.latest_device

/-- Mirrors `FillerType::fill` from `weight.rs`: dispatch on the variant. -/
def FillerType.fill : FillerType → SharedTensor → Option SharedTensor
  | FillerType.Constant value, weight => FillerType.fill_constant weight value

/-! ### Buffers, the heap, layers

A network-level buffer is modelled by its shape (`desc`, what
`SharedTensor::desc()` reports) and its element list; the per-device residency
bookkeeping — orthogonal to the content and aliasing properties below, and
modelled in full on `SharedTensor` above — is elided at this level. -/

/-- Handle to a buffer: an index into the heap.  Cloning an
`ArcLock<SharedTensor<f32>>` is copying the index. -/
abbrev Ref := Nat

/-- A network-level buffer: shape plus contents. -/
structure Buffer where
  desc : List Nat
  elems : List ℚ
  deriving DecidableEq

instance : Inhabited Buffer := ⟨⟨[], []⟩⟩

/-- The buffer store all handles point into. -/
abbrev Heap := List Buffer

/-- Mirrors `SharedTensor::desc().size()`: the total element count. -/
def Buffer.size (b : Buffer) : Nat := b.desc.prod

/-- A layer as `network.rs` sees it.  `layer.rs` is not part of this source
tree; the fields below are the exact slice of `Layer` that `network.rs`
touches: its name, its input slot names and handles (`input_blob_names()`,
`input_blobs_data`), its weight handles (`weights_data`, `weights_gradient`),
and — since `ILayer::forward` is an external plugin returning the layer's
scalar loss contribution — an abstract per-layer loss value. -/
structure Layer where
  name : String
  input_blob_names : List String
  input_blobs_data : List Ref
  weights_data : List Ref
  weights_gradient : List Ref
  forward_loss : ℚ
  deriving DecidableEq

instance : Inhabited Layer := ⟨⟨"", [], [], [], [], 0⟩⟩

/-! ### Forward and backward execution (`network.rs`)

The per-layer work (`forward()`, `backward_input()`, `backward_parameters()`,
`synchronize()`) is behind the external layer plugin contract, so execution is
modelled by the scalar loss a pass returns plus a trace of the calls the
network makes, which is what the scheduling claims are about. -/

/-- Observable calls `Network` makes into its layers. -/
inductive NEvent
  | forward (i : Nat)
  | backward_input (i : Nat)
  | backward_parameters (i : Nat)
  | sync (i : Nat)
  deriving DecidableEq

/-- Body of the `for i in start..end` loop of `Network::forward_from_to`, over
the materialized index list: `loss += self.layers[i].forward()`, then
`self.layers[i].synchronize()` exactly when `i == end - 1`. -/
def forward_steps (layers : List Layer) (e : Nat) : List Nat → ℚ × List NEvent
  | [] => (0, [])
  | i :: rest =>
    ((layers.getD i default).forward_loss + (forward_steps layers e rest).1,
      (NEvent.forward i :: if i = e - 1 then [NEvent.sync i] else []) ++
        (forward_steps layers e rest).2)

/-- Mirrors `Network::forward_from_to`: `assert!(end <= self.layers.len())`
(assertion failure modelled as `none`), then the loop over `start..end`. -/
def forward_from_to (layers : List Layer) (start e : Nat) : Option (ℚ × List NEvent) :=
  if e ≤ layers.length then some (forward_steps layers e (List.range' start (e - start)))
  else none

/-- Body of the `for i in (end..start).rev()` loops of
`Network::backward_input_from_to` and `Network::backward_parameters_from_to`:
call the per-layer step (`ev i`), then `synchronize` exactly when `i == end`. -/
def backward_steps (ev : Nat → NEvent) (e : Nat) : List Nat → List NEvent
  | [] => []
  | i :: rest => (ev i :: if i = e then [NEvent.sync i] else []) ++ backward_steps ev e rest

/-- Mirrors `Network::backward_input_from_to`: iterate `(end..start).rev()`;
the `self.layers[i]` indexing requires `start ≤ layers.len()` (out-of-range
panic modelled as `none`; `backward()` always passes `start = layers.len()`). -/
def backward_input_from_to (layers : List Layer) (start e : Nat) : Option (List NEvent) :=
  if start ≤ layers.length then
    some (backward_steps NEvent.backward_input e (List.range' e (start - e)).reverse)
  else none

/-- Mirrors `Network::backward_parameters_from_to`: same loop shape as
`backward_input_from_to` with the per-layer parameter-gradient step. -/
def backward_parameters_from_to (layers : List Layer) (start e : Nat) : Option (List NEvent) :=
  if start ≤ layers.length then
    some (backward_steps NEvent.backward_parameters e (List.range' e (start - e)).reverse)
  else none

/-- Mirrors `Network::backward`: `backward_input_from_to(layers.len(), 0)`
followed by `backward_parameters_from_to(layers.len(), 0)`. -/
def backward (layers : List Layer) : Option (List NEvent) :=
  match backward_input_from_to layers layers.length 0,
        backward_parameters_from_to layers layers.length 0 with
  | some t1, some t2 => some (t1 ++ t2)
  | _, _ => none

/-! ### Weight update and gradient reset (`network.rs`) -/

/-- Observable backend calls of `Network::update_weights`. -/
inductive UEvent
  | sync_scalar
  | sync_gradient (r : Ref)
  | sync_data (r : Ref)
  | axpy (x y : Ref)
  deriving DecidableEq

/-- Mirrors `axpy_plain` of the vendored BLAS plugin: `y := a * x + y`
elementwise (saving the result back into `y`). -/
def axpy_update (a : ℚ) (x y : List ℚ) : List ℚ :=
  (x.zip y).map (fun p => a * p.1 + p.2)

/-- Loop body of `Network::update_weights` over the zipped
`(weight_gradient, weight_data)` pairs: sync the gradient, sync the data,
then `axpy_plain(-1, gradient, data)`. -/
def update_weights_go (heap : Heap) : List (Ref × Ref) → Heap × List UEvent
  | [] => (heap, [])
  | p :: rest =>
    ((update_weights_go (heap.set p.2
        { heap.getD p.2 default with
          elems := axpy_update (-1) (heap.getD p.1 default).elems
            (heap.getD p.2 default).elems }) rest).1,
      [UEvent.sync_gradient p.1, UEvent.sync_data p.2, UEvent.axpy p.1 p.2] ++
        (update_weights_go (heap.set p.2
          { heap.getD p.2 default with
            elems := axpy_update (-1) (heap.getD p.1 default).elems
              (heap.getD p.2 default).elems }) rest).2)

/-- Mirrors `Network::update_weights`: set up the `-1` scalar on the backend
device (`native_scalar(-1)`, `add_device`, `sync`), then run the loop over
`learnable_weights_gradient.zip(learnable_weights_data)`. -/
def update_weights (heap : Heap) (lg ld : List Ref) : Heap × List UEvent :=
  ((update_weights_go heap (lg.zip ld)).1,
    UEvent.sync_scalar :: (update_weights_go heap (lg.zip ld)).2)

/-- Element-level effect on a buffer of `FillerType::Constant{value}.fill`:
every element overwritten with the constant (the device round-trip of the
filler is `FillerType.fill_constant` above). -/
def fill_elems (value : ℚ) (b : Buffer) : Buffer :=
  { b with elems := b.elems.map (fun _ => value) }

/-- Mirrors `Network::clear_weight_diffs`: fill every buffer of
`learnable_weights_gradient`, in list order, with the constant `0`. -/
def clear_weight_diffs (heap : Heap) : List Ref → Heap
  | [] => heap
  | r :: rest => clear_weight_diffs (heap.set r (fill_elems 0 (heap.getD r default))) rest

/-! ### Weight sharing resolution (`network.rs`) -/

/-- Mirrors `Network::share_weights`: for every weight index `i` (enumerating
a clone of the list, reading the live one), when `weight_owners[i]` is
`Some(j)`, `assert!` that the two buffers have equal element counts
(assertion failure — a panic, not an error return — modelled as `none`;
likewise the `weight_owners[i]` / `weights[j]` indexing panics), then replace
the handle `weights[i]` with a clone of the handle `weights[j]`. -/
def share_weights (heap : Heap) (weights0 : List Ref) (owners : List (Option Nat)) :
    Option (List Ref) :=
  (List.range weights0.length).foldlM
    (fun ws i =>
      match owners[i]? with
      | none => none
      | some none => some ws
      | some (some j) =>
        match ws[i]?, ws[j]? with
        | some ri, some rj =>
          if (heap.getD ri default).size = (heap.getD rj default).size
          then some (ws.set i rj) else none
        | _, _ => none)
    weights0

/-! ### The `Network` record and its configuration (`network.rs`)

The two `HashMap`s (`registry`, `weight_names_index`) are modelled as
association lists; the construction code only ever inserts a key it has
checked to be absent, so keys are unique (proved below) and the list order is
immaterial. -/

/-- Mirrors the `Network` struct of `network.rs`, plus a `log` of the
`error!(..)` messages construction emits (the source reports these through the
logging facade and continues). -/
structure Network where
  name : String
  layers : List Layer
  blobs_data : List Ref
  blobs_gradient : List Ref
  blob_names : List String
  input_blobs_data : List Ref
  input_blobs_gradient : List Ref
  input_blob_names : List String
  output_blobs_data : List Ref
  output_blobs_gradient : List Ref
  registry : List (String × Ref × Ref)
  weight_owners : List (Option Nat)
  weight_display_names : List String
  weight_layer_indices : List (Nat × Nat)
  weight_names_index : List (String × Nat)
  weights : List Ref
  learnable_weights_data : List Ref
  learnable_weights_gradient : List Ref
  learnable_weight_ids : List Nat
  weights_lr : List (Option ℚ)
  weights_weight_decay : List (Option ℚ)
  log : List String
  deriving DecidableEq

/-- Mirrors `Network::default()`: everything empty. -/
def Network.empty : Network :=
  ⟨"", [], [], [], [], [], [], [], [], [], [], [], [], [], [], [], [], [], [], [], [], []⟩

instance : Inhabited Network := ⟨Network.empty⟩

/-- Mirrors `NetworkMode` from `network.rs`. -/
inductive NetworkMode
  | Train
  | Test
  deriving DecidableEq

/-- Mirrors `NetworkState` from `network.rs`. -/
structure NetworkState where
  mode : NetworkMode
  level : Int
  stage : List String
  deriving DecidableEq

/-- Modelled from the spec: `layer.rs` is not part of this source tree, so a
layer configuration is reduced to what the spec says `Layer::from_config` and
`Layer::connect` consume (spec sections 4.1 step 2 and 6): the layer's name,
its declared bottom and top names, the weights the layer type introduces —
each with its `WeightConfig` (carrying the share name and share mode) and its
shape — and the abstract scalar loss its `forward` returns. -/
structure LayerConfig where
  name : String
  bottoms : List String
  tops : List String
  weight_specs : List (WeightConfig × List Nat)
  loss : ℚ

/-- Mirrors `NetworkConfig` from `network.rs`. -/
structure NetworkConfig where
  name : String
  inputs : List String
  input_shapes : List (List Nat)
  force_backward : Bool
  state : NetworkState
  debug_info : Bool
  layers : List LayerConfig

/-- State threaded through `Network::init`: the network being built, the
buffer heap, and the two local registries `init` owns and passes to
`init_input_blob` / `init_layer` / `Layer::connect`. -/
structure BuildState where
  net : Network
  heap : Heap
  registry : List (String × Ref × Ref)
  weight_registry : List (String × Ref × Ref × Option ℚ × Option ℚ)

/-- Mirrors `Network::init_input_blob`: a name already registered only logs
"Top blob .. produced by multiple sources." and returns (nothing allocated,
nothing overwritten); otherwise a fresh data/gradient buffer pair sized to the
declared shape is allocated (allocation contents are unspecified, modelled
zero), the data handle is pushed onto `blobs_data` / `blob_names` /
`input_blobs_data` / `input_blob_names`, and the pair is registered. -/
def init_input_blob (st : BuildState) (blob_name : String) (input_shape : List Nat) :
    BuildState :=
  if (st.registry.lookup blob_name).isSome then
    { st with net := { st.net with
        log := st.net.log ++ ["Top blob " ++ blob_name ++ " produced by multiple sources."] } }
  else
    { st with
      heap := st.heap ++ [⟨input_shape, List.replicate input_shape.prod 0⟩,
        ⟨input_shape, List.replicate input_shape.prod 0⟩]
      registry := st.registry ++ [(blob_name, st.heap.length, st.heap.length + 1)]
      net := { st.net with
        blobs_data := st.net.blobs_data ++ [st.heap.length]
        blob_names := st.net.blob_names ++ [blob_name]
        input_blobs_data := st.net.input_blobs_data ++ [st.heap.length]
        input_blob_names := st.net.input_blob_names ++ [blob_name] } }

/-- Modelled from the spec (section 4.1 step 2): the bottom-wiring part of
`Layer::connect` — for each declared bottom name, look the buffer pair up in
the registry and bind its data handle as the next input slot; a missing name
is an unmet-dependency configuration error (logged, in this codebase's
error-reporting style). -/
def connect_bottoms (registry : List (String × Ref × Ref)) (cfg_name : String) :
    List String → Layer × List String → Layer × List String
  | [], acc => acc
  | b :: rest, acc =>
    connect_bottoms registry cfg_name rest
      (match registry.lookup b with
       | some p =>
         ({ acc.1 with
             input_blob_names := acc.1.input_blob_names ++ [b]
             input_blobs_data := acc.1.input_blobs_data ++ [p.1] }, acc.2)
       | none =>
         (acc.1, acc.2 ++ ["Unknown bottom blob " ++ b ++ " for layer " ++ cfg_name ++ "."]))

/-- Modelled from the spec (section 4.1 step 2): the top-wiring part of
`Layer::connect` — for each declared top name, allocate and register a fresh
data/gradient pair unless the name is already registered (in-place reuse of an
existing pair).  Top buffer shapes are determined by the external layer type
and never inspected by the claims; they are modelled empty. -/
def connect_tops : List String → List (String × Ref × Ref) × Heap →
    List (String × Ref × Ref) × Heap
  | [], acc => acc
  | t :: rest, acc =>
    connect_tops rest
      (if (acc.1.lookup t).isSome then acc
       else (acc.1 ++ [(t, acc.2.length, acc.2.length + 1)],
         acc.2 ++ [(⟨[], []⟩ : Buffer), (⟨[], []⟩ : Buffer)]))

/-- Modelled from the spec (sections 4.1 step 2 and 4.3): the weight part of
`Layer::connect` — each weight the layer introduces gets a freshly allocated
data/gradient pair; a weight carrying a non-empty share name is either
registered in the weight registry (first occurrence) or dimension-checked
against the registered owner (`check_dimensions`, section 4.3; a mismatch is
logged).  Aliasing of shared weights is, per sections 2 and 4.3 of the spec,
the job of the post-construction resolver (`share_weights`), not of
`connect`; and `connect` receives only the two registries, so it cannot touch
the network-level `weights` / `weight_owners` lists. -/
def connect_weights (cfg_name : String) :
    List (WeightConfig × List Nat) →
    Layer × List (String × Ref × Ref × Option ℚ × Option ℚ) × Heap × List String →
    Layer × List (String × Ref × Ref × Option ℚ × Option ℚ) × Heap × List String
  | [], acc => acc
  | ws :: rest, (layer, wreg, heap, log) =>
    if ws.1.name = "" then
      connect_weights cfg_name rest
        ({ layer with
            weights_data := layer.weights_data ++ [heap.length]
            weights_gradient := layer.weights_gradient ++ [heap.length + 1] },
          wreg,
          heap ++ [⟨ws.2, List.replicate ws.2.prod 0⟩, ⟨ws.2, List.replicate ws.2.prod 0⟩],
          log)
    else
      match wreg.lookup ws.1.name with
      | none =>
        connect_weights cfg_name rest
          ({ layer with
              weights_data := layer.weights_data ++ [heap.length]
              weights_gradient := layer.weights_gradient ++ [heap.length + 1] },
            wreg ++ [(ws.1.name, heap.length, heap.length + 1, ws.1.lr_mult, ws.1.decay_mult)],
            heap ++ [⟨ws.2, List.replicate ws.2.prod 0⟩, ⟨ws.2, List.replicate ws.2.prod 0⟩],
            log)
      | some owner =>
        match ws.1.check_dimensions ⟨ws.2⟩
            ⟨((heap ++ [(⟨ws.2, List.replicate ws.2.prod 0⟩ : Buffer),
                (⟨ws.2, List.replicate ws.2.prod 0⟩ : Buffer)]).getD owner.1 default).desc⟩
            ws.1.name "" cfg_name with
        | Except.ok _ =>
          connect_weights cfg_name rest
            ({ layer with
                weights_data := layer.weights_data ++ [heap.length]
                weights_gradient := layer.weights_gradient ++ [heap.length + 1] },
              wreg,
              heap ++ [⟨ws.2, List.replicate ws.2.prod 0⟩, ⟨ws.2, List.replicate ws.2.prod 0⟩],
              log)
        | Except.error e =>
          connect_weights cfg_name rest
            ({ layer with
                weights_data := layer.weights_data ++ [heap.length]
                weights_gradient := layer.weights_gradient ++ [heap.length + 1] },
              wreg,
              heap ++ [⟨ws.2, List.replicate ws.2.prod 0⟩, ⟨ws.2, List.replicate ws.2.prod 0⟩],
              log ++ [e])

/-- Modelled from the spec: `Layer::from_config` — a fresh layer carrying the
configured name and the abstract loss of its layer type. -/
def Layer.from_config (cfg : LayerConfig) : Layer := ⟨cfg.name, [], [], [], [], cfg.loss⟩

/-- Modelled from the spec: `Layer::connect(registry, weight_registry)` —
bottoms, then tops, then weights, as decomposed above. -/
def Layer.connect (cfg : LayerConfig) (layer : Layer)
    (registry : List (String × Ref × Ref))
    (weight_registry : List (String × Ref × Ref × Option ℚ × Option ℚ))
    (heap : Heap) (log : List String) :
    Layer × List (String × Ref × Ref) ×
      List (String × Ref × Ref × Option ℚ × Option ℚ) × Heap × List String :=
  let bl := connect_bottoms registry cfg.name cfg.bottoms (layer, log)
  let th := connect_tops cfg.tops (registry, heap)
  let wr := connect_weights cfg.name cfg.weight_specs (bl.1, weight_registry, th.2, bl.2)
  (wr.1, th.1, wr.2.1, wr.2.2.1, wr.2.2.2)

/-- Mirrors `Network::init_layer`: validate the configuration
(`LayerConfig::validate` is layer-type specific and external; its failure is
only logged by the source, so it is modelled as a no-op), build the layer,
`connect` it, push every handle of the layer's `weights_data` /
`weights_gradient` onto the network's flattened learnable lists, and append
the layer.  Nothing here (or anywhere else in construction) touches
`weights`, `weight_owners`, `weight_display_names` or `weight_names_index`. -/
def init_layer (st : BuildState) (layer_config : LayerConfig) : BuildState :=
  let c := Layer.connect layer_config (Layer.from_config layer_config)
    st.registry st.weight_registry st.heap st.net.log
  { net := { st.net with
      learnable_weights_data := st.net.learnable_weights_data ++ c.1.weights_data
      learnable_weights_gradient := st.net.learnable_weights_gradient ++ c.1.weights_gradient
      layers := st.net.layers ++ [c.1]
      log := c.2.2.2.2 }
    heap := c.2.2.2.1
    registry := c.2.1
    weight_registry := c.2.2.1 }

/-- The input phase of `Network::init`: starting from `Network::default()`
with empty heap and registries, wire each declared `(input, shape)` pair. -/
def build_inputs (cfg : NetworkConfig) : BuildState :=
  (cfg.inputs.zip cfg.input_shapes).foldl
    (fun s p => init_input_blob s p.1 p.2) ⟨Network.empty, [], [], []⟩

/-- The layer phase of `Network::init`: wire each layer configuration in
declaration order. -/
def build_layers (cfg : NetworkConfig) : BuildState :=
  cfg.layers.foldl init_layer (build_inputs cfg)

/-- After the layer phase of `Network::init`, every remaining registry entry
is collected as an output pair (source lines 198-203).  The backprop passes
(`init_backprop` / `init_force_backward`) set flags internal to the external
layers and are modelled as no-ops. -/
def build_outputs (cfg : NetworkConfig) : Network :=
  { (build_layers cfg).net with
    output_blobs_data :=
      (build_layers cfg).registry.map (fun e : String × Ref × Ref => e.2.1)
    output_blobs_gradient :=
      (build_layers cfg).registry.map (fun e : String × Ref × Ref => e.2.2) }

/-- Mirrors `Network::init` (and `Network::from_config`, which is
`default()` + `init`): inputs, layers, output collection, then
`share_weights` (its `assert!` panic modelled as `none`) and storing the
registry.  There is no error return: construction always produces a
`Network` unless it panics. -/
def from_config (cfg : NetworkConfig) : Option (Network × Heap) :=
  match share_weights (build_layers cfg).heap (build_outputs cfg).weights
      (build_outputs cfg).weight_owners with
  | none => none
  | some ws =>
    some ({ build_outputs cfg with weights := ws, registry := (build_layers cfg).registry },
      (build_layers cfg).heap)

/-! ### Forward input binding (`Network::forward`) -/

/-- Inner loop of `Network::forward` over one layer's slots: every slot whose
name equals the target name is replaced by the supplied handle.  (The source
iterates the layer's name list by index and writes the data list at the same
index; the two lists have equal length in a connected layer, under which this
`zip` formulation is exact.) -/
def bind_layer_slots (names : List String) (target : String) (inp : Ref)
    (data : List Ref) : List Ref :=
  (names.zip data).map (fun p => if p.1 = target then inp else p.2)

/-- One iteration of the input-binding loop of `Network::forward`:
`self.input_blobs_data[i] = inp.clone()` — the indexing panics out of range
(the `none` case) — then every layer slot named `self.input_blob_names[i]` is
replaced by the same handle. -/
def bind_input (net : Network) (i : Nat) (inp : Ref) : Option Network :=
  if i < net.input_blobs_data.length then
    let target := net.input_blob_names.getD i ""
    some { net with
      input_blobs_data := net.input_blobs_data.set i inp
      layers := net.layers.map (fun l =>
        { l with input_blobs_data :=
            bind_layer_slots l.input_blob_names target inp l.input_blobs_data }) }
  else none

/-- The `for (i, inp) in input.iter().enumerate()` loop of `Network::forward`. -/
def bind_inputs (net : Network) (i : Nat) : List Ref → Option Network
  | [] => some net
  | inp :: rest =>
    match bind_input net i inp with
    | some n1 => bind_inputs n1 (i + 1) rest
    | none => none

/-- Mirrors `Network::forward`: bind the supplied handles positionally, then
`forward_prefilled(Some(loss))`, which is `forward_from_to(0, layers.len())`. -/
def Network.forward (net : Network) (input : List Ref) :
    Option (Network × ℚ × List NEvent) :=
  match bind_inputs net 0 input with
  | some n1 =>
    match forward_from_to n1.layers 0 n1.layers.length with
    | some p => some (n1, p.1, p.2)
    | none => none
  | none => none

/-! ### Concrete fixtures used by witnesses and counterexamples -/

/-- Two layers with loss contributions 2 and 3. -/
def fixture_layers : List Layer :=
  [⟨"a", [], [], [], [], 2⟩, ⟨"b", [], [], [], [], 3⟩]

/-- A gradient buffer `[1, 2]` at handle 0 and a data buffer `[10, 10]` at
handle 1. -/
def fixture_update_heap : Heap := [⟨[2], [1, 2]⟩, ⟨[2], [10, 10]⟩]

/-- A tensor resident on device 3 holding `[5, 7]`. -/
def fixture_tensor : SharedTensor :=
  ⟨[2], fun d => if d = 3 then some [5, 7] else none, 3⟩

/-- Two buffers of element counts 2 and 3: a size mismatch for sharing. -/
def mismatch_heap : Heap := [⟨[2], [0, 0]⟩, ⟨[3], [0, 0, 0]⟩]

/-- A configuration declaring the same external input name twice. -/
def dup_input_config : NetworkConfig :=
  ⟨"n", ["data", "data"], [[1], [1]], false, ⟨NetworkMode.Test, 0, []⟩, false, []⟩

/-- A weight configuration declaring the share name `w` in strict mode. -/
def shared_w_config : WeightConfig := ⟨"w", DimCheckMode.Strict, none, none, none⟩

/-- A configuration with two layers both declaring a weight shared under the
name `w` with identical shapes `[2]` — the canonical tied-weights setup. -/
def shared_weight_config : NetworkConfig :=
  ⟨"n", [], [], false, ⟨NetworkMode.Test, 0, []⟩, false,
    [⟨"l1", [], [], [(shared_w_config, [2])], 0⟩,
     ⟨"l2", [], [], [(shared_w_config, [2])], 0⟩]⟩

/-- A one-input, one-layer network state for exercising the input binding:
the declared input `x` currently holds handle 7, as does the layer's slot. -/
def fixture_net : Network :=
  { Network.empty with
    input_blobs_data := [7]
    input_blob_names := ["x"]
    layers := [⟨"l1", ["x"], [7], [], [], 0⟩] }

/-! ### C7: `check_dimensions` -/

/-- C7: for every pair of blobs and every `WeightConfig`, `check_dimensions`
succeeds exactly when the active mode's condition holds — under `Strict` it
errors if and only if the shapes differ, under `Permissive` it errors if and
only if the total element counts differ (so equal counts with different
shapes succeed). -/
theorem check_dimensions_ok_iff (cfg : WeightConfig) (blob_one blob_two : Blob)
    (param_name owner_name layer_name : String) :
    cfg.check_dimensions blob_one blob_two param_name owner_name layer_name =
        Except.ok () ↔
      (match cfg.share_mode with
       | DimCheckMode.Strict => blob_one.shape = blob_two.shape
       | DimCheckMode.Permissive => blob_one.size = blob_two.size) := by
  unfold WeightConfig.check_dimensions
  cases cfg.share_mode <;> dsimp only <;> split <;>
    simp_all

/-! ### C6: mismatched sizes in `share_weights` panic -/

/-- C6: at a concrete state — two weights of element counts 2 and 3, the
second declaring the first as owner — `share_weights` hits its `assert!` and
panics (`none`); no configuration error naming the layers is produced, the
function has no error channel at all. -/
theorem share_weights_size_mismatch_panics :
    share_weights mismatch_heap [0, 1] [none, some 0] = none := by decide

/-! ### C1: the sharing metadata is never populated -/

/-- C1: building from a configuration in which two layers declare the same
share name `w` with identical shapes yields a network whose `weights` and
`weight_owners` lists are empty — construction never populates them, so
`share_weights` aliases nothing — and whose two learnable data handles are
the distinct buffers 0 and 2 (likewise gradients 1 and 3): the two weights do
not reference the same underlying buffer, and an `update_weights` mutation of
one is not observable through the other. -/
theorem shared_config_owner_lists_empty :
    (from_config shared_weight_config).map (fun p =>
        (p.1.weights, p.1.weight_owners, p.1.learnable_weights_data,
          p.1.learnable_weights_gradient, p.1.log)) =
      some ([], [], [0, 2], [1, 3], []) := by rfl

/-! ### C2: duplicate input names -/

/-- C2 counterexample: building with the duplicate-input configuration does
not fail — `from_config` returns a fully constructed network in which the
duplicate was skipped (one registry entry, one input wired) and the error was
only written to the log, never surfaced to the caller. -/
theorem duplicate_input_returns_network :
    (from_config dup_input_config).map (fun p =>
        (p.1.input_blob_names, p.1.registry.map Prod.fst, p.1.log)) =
      some (["data"], ["data"],
        ["Top blob data produced by multiple sources."]) := by decide

/-! ### C3: `forward_from_to` -/

/-- The loop of `forward_from_to` over a contiguous index block ending at `e`
returns the summed losses and one `forward` event per index, with a single
`sync` event after the last one. -/
theorem forward_steps_range (layers : List Layer) (e : Nat) :
    ∀ (n start : Nat), start + n = e →
      forward_steps layers e (List.range' start n) =
        (((List.range' start n).map (fun i => (layers.getD i default).forward_loss)).sum,
          (List.range' start n).map NEvent.forward ++
            if n = 0 then [] else [NEvent.sync (e - 1)]) := by
  intro n
  induction n with
  | zero => intro start h; simp [forward_steps]
  | succ k ih =>
    intro start h
    rw [List.range'_succ]
    simp only [forward_steps]
    rw [ih (start + 1) (by omega)]
    rcases Nat.eq_zero_or_pos k with hk | hk
    · subst hk
      have hs : start = e - 1 := by omega
      simp [hs]
    · have hs : ¬ start = e - 1 := by omega
      have hk0 : ¬ k = 0 := by omega
      simp [hs, hk0]

/-- C3: for `start ≤ end ≤ layer_count`, `forward_from_to(start, end)` runs
the layers `start, .., end-1` in order, returns the sum of their loss
contributions (zero for the empty range), and synchronizes exactly one layer
— the last executed one, `end - 1` — and none when the range is empty. -/
theorem forward_from_to_spec (layers : List Layer) (start e : Nat)
    (h1 : start ≤ e) (h2 : e ≤ layers.length) :
    forward_from_to layers start e =
      some
        (((List.range' start (e - start)).map
            (fun i => (layers.getD i default).forward_loss)).sum,
          (List.range' start (e - start)).map NEvent.forward ++
            if start < e then [NEvent.sync (e - 1)] else []) := by
  unfold forward_from_to
  rw [if_pos h2, forward_steps_range layers e (e - start) start (by omega)]
  by_cases h : start < e
  · rw [if_neg (by omega : ¬ e - start = 0), if_pos h]
  · rw [if_pos (by omega : e - start = 0), if_neg h]

/-- C3 witness: the two fixture layers, full range. -/
theorem forward_from_to_spec_witness :
    forward_from_to fixture_layers 0 2 =
      some (5, [NEvent.forward 0, NEvent.forward 1, NEvent.sync 1]) := by
  rw [forward_from_to_spec fixture_layers 0 2 (by omega) (by decide)]
  norm_num [fixture_layers, List.range']

/-! ### C5: `backward` -/

/-- The backward loop over indices `l ++ [0]` with none of `l` equal to the
sync index 0: one per-layer event each, a single `sync` after the last. -/
theorem backward_steps_append (ev : Nat → NEvent) :
    ∀ (l : List Nat), (∀ i ∈ l, i ≠ 0) →
      backward_steps ev 0 (l ++ [0]) = l.map ev ++ [ev 0, NEvent.sync 0] := by
  intro l
  induction l with
  | nil => intro _; simp [backward_steps]
  | cons i rest ih =>
    intro h
    have hi : i ≠ 0 := h i (by simp)
    have ih2 := ih (fun j hj => h j (by simp [hj]))
    simp only [List.cons_append, backward_steps, if_neg hi, List.map_cons,
      List.append_eq, List.nil_append]
    rw [ih2]

/-- The reversed full index range ends with index 0, and 0 occurs nowhere
earlier. -/
theorem range'_reverse_decomp (n : Nat) (h : 0 < n) :
    (List.range' 0 n).reverse = (List.range' 1 (n - 1)).reverse ++ [0] := by
  have : List.range' 0 n = 0 :: List.range' 1 (n - 1) := by
    conv_lhs => rw [show n = (n - 1) + 1 by omega]
    rw [List.range'_succ]
  rw [this, List.reverse_cons]

/-- One backward pass over the full range: the per-layer step on every index
in reverse order, then exactly one `sync`, on index 0. -/
theorem backward_pass_trace (ev : Nat → NEvent) (n : Nat) (h : 0 < n) :
    backward_steps ev 0 (List.range' 0 n).reverse =
      (List.range' 0 n).reverse.map ev ++ [NEvent.sync 0] := by
  rw [range'_reverse_decomp n h]
  rw [backward_steps_append ev _ (by
    intro i hi
    rw [List.mem_reverse, List.mem_range'] at hi
    omega)]
  simp

/-- C5: for a network with at least one layer, `backward()` performs two
passes over the whole range, each in reverse index order — first
`backward_input` on every layer, then `backward_parameters` on every layer —
and each pass synchronizes exactly once, on layer 0, after processing it. -/
theorem backward_spec (layers : List Layer) (h : 0 < layers.length) :
    backward layers =
      some
        (((List.range' 0 layers.length).reverse.map NEvent.backward_input ++
            [NEvent.sync 0]) ++
          ((List.range' 0 layers.length).reverse.map NEvent.backward_parameters ++
            [NEvent.sync 0])) := by
  unfold backward backward_input_from_to backward_parameters_from_to
  rw [if_pos (le_refl _), if_pos (le_refl _)]
  rw [Nat.sub_zero, backward_pass_trace NEvent.backward_input layers.length h,
    backward_pass_trace NEvent.backward_parameters layers.length h]

/-- C5 witness: the two fixture layers. -/
theorem backward_spec_witness :
    backward fixture_layers =
      some [NEvent.backward_input 1, NEvent.backward_input 0, NEvent.sync 0,
        NEvent.backward_parameters 1, NEvent.backward_parameters 0, NEvent.sync 0] := by
  rw [backward_spec fixture_layers (by decide)]
  decide

/-! ### List helpers shared by the heap-mutation proofs -/

/-- Reading a just-written heap slot yields the written buffer. -/
theorem getD_set_self {α : Type} (l : List α) (i : Nat) (a d : α) (h : i < l.length) :
    (l.set i a).getD i d = a := by
  simp [List.getD_eq_getElem?_getD, List.getElem?_set_self h]

/-- Writing one heap slot leaves every other slot unread. -/
theorem getD_set_ne {α : Type} (l : List α) (i j : Nat) (a d : α) (h : i ≠ j) :
    (l.set i a).getD j d = l.getD j d := by
  simp [List.getD_eq_getElem?_getD, List.getElem?_set_ne h]

/-- An in-range `getD` is a member of the list. -/
theorem getD_mem {α : Type} (l : List α) (k : Nat) (d : α) (h : k < l.length) :
    l.getD k d ∈ l := by
  rw [List.getD_eq_getElem?_getD, List.getElem?_eq_getElem h]
  exact List.getElem_mem h

/-- The second components of a zip form a sublist of the second list. -/
theorem zip_map_snd_sublist {α β : Type} :
    ∀ (l1 : List α) (l2 : List β), ((l1.zip l2).map Prod.snd).Sublist l2
  | [], _ => by simp
  | _ :: _, [] => by simp
  | a :: l1, b :: l2 => by
    simpa using List.Sublist.cons₂ b (zip_map_snd_sublist l1 l2)

/-! ### C8: `clear_weight_diffs` -/

/-- Setting a slot to its zero-filled contents makes every element read there
zero (a slot past the heap reads as the empty default). -/
theorem zero_after_fill_set (heap : Heap) (r : Ref) :
    ∀ x ∈ ((heap.set r (fill_elems 0 (heap.getD r default))).getD r default).elems,
      x = 0 := by
  by_cases h : r < heap.length
  · rw [getD_set_self _ _ _ _ h]
    intro x hx
    simp only [fill_elems, List.mem_map] at hx
    obtain ⟨a, -, ha⟩ := hx
    exact ha.symm
  · rw [List.set_eq_of_length_le (Nat.le_of_not_lt h)]
    intro x hx
    rw [List.getD_eq_getElem?_getD,
      List.getElem?_eq_none (Nat.le_of_not_lt h)] at hx
    exact absurd hx (List.not_mem_nil x)

/-- `clear_weight_diffs` does not touch any buffer outside the gradient list. -/
theorem clear_weight_diffs_frame (lg : List Ref) :
    ∀ (heap : Heap) (r : Ref), r ∉ lg →
      (clear_weight_diffs heap lg).getD r default = heap.getD r default := by
  induction lg with
  | nil => intro heap r _; rfl
  | cons r0 rest ih =>
    intro heap r hr
    rw [List.mem_cons] at hr
    push_neg at hr
    simp only [clear_weight_diffs]
    rw [ih _ r hr.2, getD_set_ne _ _ _ _ _ (Ne.symm hr.1)]

/-- Every buffer of the gradient list is all-zero after `clear_weight_diffs`. -/
theorem clear_weight_diffs_zero (lg : List Ref) :
    ∀ (heap : Heap), ∀ r ∈ lg,
      ∀ x ∈ ((clear_weight_diffs heap lg).getD r default).elems, x = 0 := by
  induction lg with
  | nil => intro heap r hr; simp at hr
  | cons r0 rest ih =>
    intro heap r hr
    rw [List.mem_cons] at hr
    by_cases hmem : r ∈ rest
    · simp only [clear_weight_diffs]
      exact ih _ r hmem
    · have hr0 : r = r0 := by tauto
      subst hr0
      simp only [clear_weight_diffs]
      intro x hx
      rw [clear_weight_diffs_frame rest _ r hmem] at hx
      exact zero_after_fill_set heap r x hx

/-- C8: after `clear_weight_diffs`, every buffer of the learnable-gradient
list reads as all zeros; no buffer outside that list is modified; and a
second, immediate `clear_weight_diffs` leaves all gradients all-zero. -/
theorem clear_weight_diffs_spec (heap : Heap) (lg : List Ref) :
    (∀ r ∈ lg, ∀ x ∈ ((clear_weight_diffs heap lg).getD r default).elems, x = 0) ∧
      (∀ r : Ref, r ∉ lg →
        (clear_weight_diffs heap lg).getD r default = heap.getD r default) ∧
      (∀ r ∈ lg,
        ∀ x ∈ ((clear_weight_diffs (clear_weight_diffs heap lg) lg).getD r default).elems,
          x = 0) :=
  ⟨clear_weight_diffs_zero lg heap,
    fun r hr => clear_weight_diffs_frame lg heap r hr,
    clear_weight_diffs_zero lg (clear_weight_diffs heap lg)⟩

/-! ### C4: `update_weights` -/

/-- The update loop does not touch any buffer that is not a data handle of
some pair. -/
theorem update_weights_go_frame (pairs : List (Ref × Ref)) :
    ∀ (heap : Heap) (r : Ref), r ∉ pairs.map Prod.snd →
      (update_weights_go heap pairs).1.getD r default = heap.getD r default := by
  induction pairs with
  | nil => intro heap r _; rfl
  | cons p rest ih =>
    intro heap r hr
    rw [List.map_cons, List.mem_cons] at hr
    push_neg at hr
    simp only [update_weights_go]
    rw [ih _ r hr.2, getD_set_ne _ _ _ _ _ (Ne.symm hr.1)]

/-- The update loop preserves the heap's length. -/
theorem update_weights_go_length (pairs : List (Ref × Ref)) :
    ∀ (heap : Heap), (update_weights_go heap pairs).1.length = heap.length := by
  induction pairs with
  | nil => intro heap; rfl
  | cons p rest ih =>
    intro heap
    simp only [update_weights_go]
    rw [ih]
    exact List.length_set ..

/-- The update loop emits, for each pair in order, the gradient sync, the
data sync, and the axpy call. -/
theorem update_weights_go_trace (pairs : List (Ref × Ref)) :
    ∀ (heap : Heap),
      (update_weights_go heap pairs).2 =
        pairs.flatMap
          (fun p => [UEvent.sync_gradient p.1, UEvent.sync_data p.2, UEvent.axpy p.1 p.2]) := by
  induction pairs with
  | nil => intro heap; rfl
  | cons p rest ih =>
    intro heap
    simp only [update_weights_go, List.flatMap_cons]
    rw [ih]

/-- Per-pair effect of the update loop: each pair's data buffer becomes the
`axpy(-1)` of its original gradient and data contents, and each pair's
gradient buffer is unchanged. -/
theorem update_weights_go_spec (pairs : List (Ref × Ref)) :
    ∀ (heap : Heap),
      (pairs.map Prod.snd).Nodup →
      (∀ p ∈ pairs, p.1 ∉ pairs.map Prod.snd) →
      (∀ p ∈ pairs, p.2 < heap.length) →
      ∀ i, i < pairs.length →
        (update_weights_go heap pairs).1.getD (pairs.getD i (0, 0)).2 default =
            { heap.getD (pairs.getD i (0, 0)).2 default with
              elems := axpy_update (-1)
                (heap.getD (pairs.getD i (0, 0)).1 default).elems
                (heap.getD (pairs.getD i (0, 0)).2 default).elems } ∧
          (update_weights_go heap pairs).1.getD (pairs.getD i (0, 0)).1 default =
            heap.getD (pairs.getD i (0, 0)).1 default := by
  induction pairs with
  | nil => intro heap _ _ _ i hi; simp at hi
  | cons p rest ih =>
    intro heap hnd hdisj hbound i hi
    rw [List.map_cons, List.nodup_cons] at hnd
    have hp2 : p.2 < heap.length := hbound p (List.mem_cons_self ..)
    have hp1 : p.1 ∉ (p :: rest).map Prod.snd := hdisj p (List.mem_cons_self ..)
    rw [List.map_cons, List.mem_cons] at hp1
    push_neg at hp1
    match i with
    | 0 =>
      simp only [List.getD_cons_zero, update_weights_go]
      constructor
      · rw [update_weights_go_frame rest _ p.2 hnd.1, getD_set_self _ _ _ _ hp2]
      · rw [update_weights_go_frame rest _ p.1 hp1.2,
          getD_set_ne _ _ _ _ _ (Ne.symm hp1.1)]
    | Nat.succ k =>
      simp only [List.getD_cons_succ, update_weights_go]
      have hk : k < rest.length := by simpa using hi
      have hq : rest.getD k (0, 0) ∈ rest := getD_mem rest k (0, 0) hk
      have hq2ne : (rest.getD k (0, 0)).2 ≠ p.2 := by
        intro e
        exact hnd.1 (e ▸ List.mem_map_of_mem Prod.snd hq)
      have hq1ne : (rest.getD k (0, 0)).1 ≠ p.2 := by
        have := hdisj (rest.getD k (0, 0)) (List.mem_cons_of_mem p hq)
        rw [List.map_cons, List.mem_cons] at this
        push_neg at this
        exact this.1
      have hres := ih
        (heap.set p.2
          { heap.getD p.2 default with
            elems := axpy_update (-1) (heap.getD p.1 default).elems
              (heap.getD p.2 default).elems })
        hnd.2
        (fun q hql => by
          have := hdisj q (List.mem_cons_of_mem p hql)
          rw [List.map_cons, List.mem_cons] at this
          push_neg at this
          exact this.2)
        (fun q hql => by
          rw [List.length_set]
          exact hbound q (List.mem_cons_of_mem p hql))
        k hk
      rw [getD_set_ne _ _ _ _ _ (Ne.symm hq2ne), getD_set_ne _ _ _ _ _ (Ne.symm hq1ne)]
        at hres
      exact hres

/-- C4: `update_weights` syncs the `-1` scalar once, then for every learnable
`(gradient, data)` pair, in list order, syncs the gradient and the data and
applies `axpy_plain(-1, gradient, data)`; each data buffer's contents become
`data + (-1) * gradient` of the original contents elementwise, and every
gradient buffer is unchanged.  The hypotheses — distinct data handles,
disjoint from the gradient handles, all in the heap — hold for any network
built by construction, which allocates each buffer fresh. -/
theorem update_weights_spec (heap : Heap) (lg ld : List Ref)
    (hnd : ld.Nodup)
    (hdisj : ∀ r ∈ lg, r ∉ ld)
    (hbound : ∀ r ∈ ld, r < heap.length) :
    (∀ i, i < (lg.zip ld).length →
      (update_weights heap lg ld).1.getD ((lg.zip ld).getD i (0, 0)).2 default =
          { heap.getD ((lg.zip ld).getD i (0, 0)).2 default with
            elems := axpy_update (-1)
              (heap.getD ((lg.zip ld).getD i (0, 0)).1 default).elems
              (heap.getD ((lg.zip ld).getD i (0, 0)).2 default).elems } ∧
        (update_weights heap lg ld).1.getD ((lg.zip ld).getD i (0, 0)).1 default =
          heap.getD ((lg.zip ld).getD i (0, 0)).1 default) ∧
    (update_weights heap lg ld).2 =
      UEvent.sync_scalar ::
        (lg.zip ld).flatMap
          (fun p => [UEvent.sync_gradient p.1, UEvent.sync_data p.2,
            UEvent.axpy p.1 p.2]) := by
  have hsub := zip_map_snd_sublist lg ld
  constructor
  · intro i hi
    exact update_weights_go_spec (lg.zip ld) heap
      (hnd.sublist hsub)
      (fun p hp => by
        intro hmem
        obtain ⟨a, b⟩ := p
        have hab := List.of_mem_zip hp
        exact hdisj a hab.1 (hsub.subset hmem))
      (fun p hp => by
        obtain ⟨a, b⟩ := p
        exact hbound b (List.of_mem_zip hp).2)
      i hi
  · show UEvent.sync_scalar :: _ = _
    rw [update_weights_go_trace]

/-- C4 witness: gradient `[1, 2]` at handle 0, data `[10, 10]` at handle 1. -/
theorem update_weights_spec_witness :
    (update_weights fixture_update_heap [0] [1]).1.getD 1 default = ⟨[2], [9, 8]⟩ ∧
      (update_weights fixture_update_heap [0] [1]).1.getD 0 default = ⟨[2], [1, 2]⟩ ∧
      (update_weights fixture_update_heap [0] [1]).2 =
        [UEvent.sync_scalar, UEvent.sync_gradient 0, UEvent.sync_data 1,
          UEvent.axpy 0 1] := by
  have h := update_weights_spec fixture_update_heap [0] [1]
    (by decide) (by decide) (by decide)
  refine ⟨((h.1 0 (by decide)).1).trans ?_, ((h.1 0 (by decide)).2).trans ?_,
    h.2.trans ?_⟩
  · show ({ fixture_update_heap.getD 1 default with
        elems := axpy_update (-1) (fixture_update_heap.getD 0 default).elems
          (fixture_update_heap.getD 1 default).elems } : Buffer) = ⟨[2], [9, 8]⟩
    simp only [fixture_update_heap]
    norm_num [axpy_update]
  · rfl
  · rfl

/-! ### C9: the constant filler -/

/-- Running the body of `fill_constant` — sync to native, write, sync back —
on a tensor whose native and latest copies are present yields the original
residency with every observable element overwritten. -/
theorem fill_constant_run (t T : SharedTensor) (v : ℚ) (src y : List ℚ)
    (hT : t.add_device native_device = T)
    (hTlat : T.latest_device = t.latest_device)
    (hTL : T.copies t.latest_device = some src)
    (hT0 : T.copies native_device = some y) :
    ∃ u, FillerType.fill_constant t v = some u ∧
      u.latest_device = t.latest_device ∧
      u.desc = T.desc ∧
      u.read = src.map (fun _ => v) := by
  have hsync1 : T.sync native_device =
      some { T with
        copies := fun e => if e = native_device then some src else T.copies e
        latest_device := native_device } := by
    unfold SharedTensor.sync
    rw [hTlat, hTL, hT0]
  set w2 : SharedTensor := { T with
    copies := fun e => if e = native_device then some src else T.copies e
    latest_device := native_device } with hw2
  set w3 : SharedTensor := { w2 with
    copies := fun e =>
      if e = native_device then
        (w2.copies native_device).map (fun l => l.map (fun _ => v))
      else w2.copies e } with hw3
  have hw3L : w3.copies native_device = some (src.map (fun _ => v)) := by
    simp [hw3, hw2]
  have hw3A : w3.copies t.latest_device =
      some (if t.latest_device = native_device then src.map (fun _ => v) else src) := by
    by_cases hl : t.latest_device = native_device
    · rw [if_pos hl, hl, hw3L]
    · rw [if_neg hl]
      simp only [hw3, hw2]
      simp only [if_neg hl]
      exact hTL
  have hsync2 : w3.sync t.latest_device =
      some { w3 with
        copies := fun e =>
          if e = t.latest_device then some (src.map (fun _ => v)) else w3.copies e
        latest_device := t.latest_device } := by
    unfold SharedTensor.sync
    rw [show w3.latest_device = native_device from rfl, hw3L, hw3A]
  refine ⟨⟨w3.desc,
      fun e => if e = t.latest_device then some (src.map (fun _ => v)) else w3.copies e,
      t.latest_device⟩, ?_, rfl, rfl, ?_⟩
  · unfold FillerType.fill_constant
    rw [hT, hsync1]
    exact hsync2
  · simp [SharedTensor.read]

/-- C9: for every tensor (with its latest copy present and full-sized, as
collenchyma guarantees) and every value `v`, `FillerType::Constant{v}.fill`
succeeds, sets every observable element to `v`, and leaves the tensor's
device residency exactly as it was before the call. -/
theorem fill_constant_spec (t : SharedTensor) (v : ℚ) (src : List ℚ)
    (hsrc : t.copies t.latest_device = some src)
    (hlen : src.length = t.desc.prod) :
    ∃ u, FillerType.fill (FillerType.Constant v) t = some u ∧
      u.latest_device = t.latest_device ∧
      u.desc = t.desc ∧
      u.read = List.replicate t.desc.prod v := by
  cases h0 : t.copies native_device with
  | some x0 =>
    have hadd : t.add_device native_device = t := by
      unfold SharedTensor.add_device
      rw [h0]
    obtain ⟨u, h1, h2, h3, h4⟩ :=
      fill_constant_run t t v src x0 hadd rfl hsrc h0
    exact ⟨u, h1, h2, h3, by rw [h4, List.map_const', hlen]⟩
  | none =>
    have hne : t.latest_device ≠ native_device := by
      intro e
      rw [e, h0] at hsrc
      exact Option.noConfusion hsrc
    have hadd : t.add_device native_device =
        { t with copies := fun e =>
            if e = native_device then some (List.replicate t.desc.prod 0)
            else t.copies e } := by
      unfold SharedTensor.add_device
      rw [h0]
    obtain ⟨u, h1, h2, h3, h4⟩ :=
      fill_constant_run t _ v src (List.replicate t.desc.prod 0) hadd rfl
        (by simpa [hne] using hsrc)
        (by simp)
    exact ⟨u, h1, h2, h3, by rw [h4, List.map_const', hlen]⟩

/-- C9 witness: the fixture tensor resident on device 3 filled with 9. -/
theorem fill_constant_spec_witness :
    ∃ u, FillerType.fill (FillerType.Constant 9) fixture_tensor = some u ∧
      u.latest_device = 3 ∧
      u.desc = [2] ∧
      u.read = [9, 9] := by
  obtain ⟨u, h1, h2, h3, h4⟩ := fill_constant_spec fixture_tensor 9 [5, 7] rfl (by decide)
  exact ⟨u, h1, h2, h3, by rw [h4]; rfl⟩

/-! ### C10: input binding in `Network::forward` -/

/-- Reading a mapped list inside its range applies the function. -/
theorem getD_map_lt {α β : Type} (f : α → β) (l : List α) (m : Nat) (d : α) (e : β)
    (h : m < l.length) : (l.map f).getD m e = f (l.getD m d) := by
  rw [List.getD_eq_getElem?_getD, List.getElem?_map, List.getElem?_eq_getElem h,
    List.getD_eq_getElem?_getD, List.getElem?_eq_getElem h]
  rfl

/-- Reading a mapped list past its range gives the default. -/
theorem getD_map_ge {α β : Type} (f : α → β) (l : List α) (m : Nat) (e : β)
    (h : l.length ≤ m) : (l.map f).getD m e = e := by
  rw [List.getD_eq_getElem?_getD, List.getElem?_eq_none (by simpa using h)]
  rfl

/-- Two positions of a duplicate-free list hold different values. -/
theorem nodup_getD_ne (l : List String) (hl : l.Nodup) (i j : Nat)
    (hi : i < l.length) (hj : j < l.length) (hij : i ≠ j) :
    l.getD i "" ≠ l.getD j "" := by
  rw [List.getD_eq_getElem?_getD, List.getElem?_eq_getElem hi,
    List.getD_eq_getElem?_getD, List.getElem?_eq_getElem hj]
  simp only [Option.getD_some]
  intro e
  exact hij ((hl.getElem_inj_iff).mp e)

/-- Slot-level reading of `bind_layer_slots`: inside the (equal-length) slot
lists, the slot becomes the supplied handle exactly when its name is the
target. -/
theorem bind_layer_slots_getD (target : String) (inp : Ref) :
    ∀ (names : List String) (data : List Ref) (b : Nat),
      names.length = data.length → b < names.length →
      (bind_layer_slots names target inp data).getD b 0 =
        if names.getD b "" = target then inp else data.getD b 0
  | [], _, b, _, hb => by simp at hb
  | n :: ns, [], b, hl, _ => by simp at hl
  | n :: ns, d :: ds, 0, _, _ => by
    simp [bind_layer_slots]
  | n :: ns, d :: ds, Nat.succ b, hl, hb => by
    have := bind_layer_slots_getD target inp ns ds b (by simpa using hl) (by simpa using hb)
    simpa [bind_layer_slots] using this

/-- `bind_layer_slots` preserves the slot-list length when the lists agree. -/
theorem bind_layer_slots_length (names : List String) (target : String) (inp : Ref)
    (data : List Ref) (h : names.length = data.length) :
    (bind_layer_slots names target inp data).length = data.length := by
  simp [bind_layer_slots, h]

/-- The in-range case of one binding iteration. -/
theorem bind_input_some (net : Network) (i : Nat) (inp : Ref)
    (h : i < net.input_blobs_data.length) :
    bind_input net i inp =
      some { net with
        input_blobs_data := net.input_blobs_data.set i inp
        layers := net.layers.map (fun l =>
          { l with input_blobs_data :=
              (bind_layer_slots l.input_blob_names (net.input_blob_names.getD i "") inp
                l.input_blobs_data) }) } := by
  unfold bind_input
  rw [if_pos h]

/-- The out-of-range case of one binding iteration: the slice indexing panics. -/
theorem bind_input_none (net : Network) (i : Nat) (inp : Ref)
    (h : ¬ i < net.input_blobs_data.length) :
    bind_input net i inp = none := by
  unfold bind_input
  rw [if_neg h]

/-- Supplying more buffers than remaining input slots panics. -/
theorem bind_inputs_overflow :
    ∀ (input : List Ref) (net : Network) (k : Nat),
      k ≤ net.input_blobs_data.length →
      net.input_blobs_data.length < k + input.length →
      bind_inputs net k input = none := by
  intro input
  induction input with
  | nil =>
    intro net k hk hlt
    exact absurd hlt (by simp only [List.length_nil]; omega)
  | cons inp rest ih =>
    intro net k hk hlt
    by_cases h : k < net.input_blobs_data.length
    · simp only [bind_inputs]
      rw [bind_input_some net k inp h]
      refine ih _ (k + 1) ?_ ?_
      · show k + 1 ≤ (net.input_blobs_data.set k inp).length
        rw [List.length_set]
        omega
      · show (net.input_blobs_data.set k inp).length < k + 1 + rest.length
        rw [List.length_set]
        simp only [List.length_cons] at hlt
        omega
    · simp only [bind_inputs]
      rw [bind_input_none net k inp h]

/-- Full behaviour of the binding loop from position `k` when the supplied
buffers fit: the loop succeeds; positions below `k` and the name lists are
untouched; position `k + t` receives the `t`-th handle; a layer slot whose
name matches none of the bound names is untouched, and one whose name equals
the `(k + t)`-th declared name receives the `t`-th handle. -/
theorem bind_inputs_spec :
    ∀ (input : List Ref) (net : Network) (k : Nat),
      net.input_blobs_data.length = net.input_blob_names.length →
      net.input_blob_names.Nodup →
      (∀ m, m < net.layers.length →
        (net.layers.getD m default).input_blob_names.length =
          (net.layers.getD m default).input_blobs_data.length) →
      k + input.length ≤ net.input_blobs_data.length →
      ∃ n', bind_inputs net k input = some n' ∧
        n'.input_blob_names = net.input_blob_names ∧
        n'.input_blobs_data.length = net.input_blobs_data.length ∧
        n'.layers.length = net.layers.length ∧
        (∀ m, m < net.layers.length →
          (n'.layers.getD m default).input_blob_names =
            (net.layers.getD m default).input_blob_names ∧
          (n'.layers.getD m default).input_blobs_data.length =
            (net.layers.getD m default).input_blobs_data.length) ∧
        (∀ j, j < k → n'.input_blobs_data.getD j 0 = net.input_blobs_data.getD j 0) ∧
        (∀ t, t < input.length →
          n'.input_blobs_data.getD (k + t) 0 = input.getD t 0) ∧
        (∀ m b, m < net.layers.length →
          b < (net.layers.getD m default).input_blob_names.length →
          ((∀ t, t < input.length →
              (net.layers.getD m default).input_blob_names.getD b "" ≠
                net.input_blob_names.getD (k + t) "") →
            (n'.layers.getD m default).input_blobs_data.getD b 0 =
              (net.layers.getD m default).input_blobs_data.getD b 0) ∧
          (∀ t, t < input.length →
            (net.layers.getD m default).input_blob_names.getD b "" =
              net.input_blob_names.getD (k + t) "" →
            (n'.layers.getD m default).input_blobs_data.getD b 0 = input.getD t 0)) := by
  intro input
  induction input with
  | nil =>
    intro net k _ _ _ _
    refine ⟨net, rfl, rfl, rfl, rfl, fun m _ => ⟨rfl, rfl⟩, fun j _ => rfl, ?_, ?_⟩
    · intro t ht
      exact absurd ht (Nat.not_lt_zero t)
    · intro m b _ _
      exact ⟨fun _ => rfl, fun t ht => absurd ht (Nat.not_lt_zero t)⟩
  | cons inp rest ih =>
    intro net k hlen hnodup hlayers hfit
    have hfit2 : k + 1 + rest.length ≤ net.input_blobs_data.length := by
      simp only [List.length_cons] at hfit
      omega
    have hk : k < net.input_blobs_data.length := by omega
    have hkn : k < net.input_blob_names.length := by omega
    set f : Layer → Layer := fun l =>
      { l with input_blobs_data :=
          (bind_layer_slots l.input_blob_names (net.input_blob_names.getD k "") inp
            l.input_blobs_data) } with hf
    set n1 : Network := { net with
      input_blobs_data := net.input_blobs_data.set k inp
      layers := net.layers.map f } with hn1
    have hbind : bind_input net k inp = some n1 := bind_input_some net k inp hk
    have hn1inames : n1.input_blob_names = net.input_blob_names := rfl
    have hn1len : n1.layers.length = net.layers.length := by
      show (net.layers.map f).length = _
      exact List.length_map ..
    have hn1names : ∀ m, m < net.layers.length →
        (n1.layers.getD m default).input_blob_names =
          (net.layers.getD m default).input_blob_names := by
      intro m hm
      show ((net.layers.map f).getD m default).input_blob_names = _
      rw [getD_map_lt f net.layers m default default hm]
    have hn1slotlen : ∀ m, m < net.layers.length →
        (n1.layers.getD m default).input_blobs_data.length =
          (net.layers.getD m default).input_blobs_data.length := by
      intro m hm
      show ((net.layers.map f).getD m default).input_blobs_data.length = _
      rw [getD_map_lt f net.layers m default default hm]
      exact bind_layer_slots_length _ _ _ _ (hlayers m hm)
    have hn1slot : ∀ m b, m < net.layers.length →
        b < (net.layers.getD m default).input_blob_names.length →
        (n1.layers.getD m default).input_blobs_data.getD b 0 =
          (if (net.layers.getD m default).input_blob_names.getD b "" =
              net.input_blob_names.getD k "" then inp
            else (net.layers.getD m default).input_blobs_data.getD b 0) := by
      intro m b hm hb
      show ((net.layers.map f).getD m default).input_blobs_data.getD b 0 = _
      rw [getD_map_lt f net.layers m default default hm]
      exact bind_layer_slots_getD _ inp _ _ b (hlayers m hm) hb
    obtain ⟨n2, hbindrest, hnames, hdlen, hllen, hlprops, hframe, hmain, hslots⟩ :=
      ih n1 (k + 1)
        (by show (net.input_blobs_data.set k inp).length = net.input_blob_names.length
            rw [List.length_set]
            exact hlen)
        hnodup
        (by intro m hm
            rw [hn1len] at hm
            rw [hn1names m hm, hn1slotlen m hm]
            exact hlayers m hm)
        (by show k + 1 + rest.length ≤ (net.input_blobs_data.set k inp).length
            rw [List.length_set]
            exact hfit2)
    rw [hn1len] at hllen hlprops hslots
    refine ⟨n2, ?_, hnames, ?_, hllen, ?_, ?_, ?_, ?_⟩
    · simp only [bind_inputs]
      rw [hbind]
      exact hbindrest
    · rw [hdlen]
      show (net.input_blobs_data.set k inp).length = _
      exact List.length_set ..
    · intro m hm
      obtain ⟨e1, e2⟩ := hlprops m hm
      exact ⟨e1.trans (hn1names m hm), e2.trans (hn1slotlen m hm)⟩
    · intro j hj
      rw [hframe j (by omega)]
      show (net.input_blobs_data.set k inp).getD j 0 = _
      exact getD_set_ne _ _ _ _ _ (by omega)
    · intro t ht
      match t with
      | 0 =>
        rw [Nat.add_zero, hframe k (by omega)]
        show (net.input_blobs_data.set k inp).getD k 0 = _
        rw [getD_set_self _ _ _ _ hk]
        rfl
      | Nat.succ u =>
        have hu : u < rest.length := by
          simp only [List.length_cons] at ht
          omega
        have hstep := hmain u hu
        rw [show k + 1 + u = k + (u + 1) by omega] at hstep
        exact hstep
    · intro m b hm hb
      have hslotval := hn1slot m b hm hb
      have hb1 : b < (n1.layers.getD m default).input_blob_names.length := by
        rw [hn1names m hm]
        exact hb
      obtain ⟨hsl_frame, hsl_main⟩ := hslots m b hm hb1
      constructor
      · intro hne
        have hne0 : (net.layers.getD m default).input_blob_names.getD b "" ≠
            net.input_blob_names.getD k "" := by
          have h0 := hne 0 (by simp)
          rwa [Nat.add_zero] at h0
        have hguard : ∀ t, t < rest.length →
            (n1.layers.getD m default).input_blob_names.getD b "" ≠
              n1.input_blob_names.getD (k + 1 + t) "" := by
          intro t ht
          rw [hn1names m hm, hn1inames]
          have h1 := hne (t + 1) (by simp only [List.length_cons]; omega)
          rwa [show k + (t + 1) = k + 1 + t by omega] at h1
        rw [hsl_frame hguard, hslotval, if_neg hne0]
      · intro t ht heq
        match t with
        | 0 =>
          rw [Nat.add_zero] at heq
          have hguard : ∀ u, u < rest.length →
              (n1.layers.getD m default).input_blob_names.getD b "" ≠
                n1.input_blob_names.getD (k + 1 + u) "" := by
            intro u hu
            rw [hn1names m hm, hn1inames, heq]
            exact nodup_getD_ne net.input_blob_names hnodup k (k + 1 + u) hkn
              (by omega) (by omega)
          rw [hsl_frame hguard, hslotval, if_pos heq]
          rfl
        | Nat.succ u =>
          have hu : u < rest.length := by
            simp only [List.length_cons] at ht
            omega
          have hstep := hsl_main u hu (by
            rw [hn1names m hm, hn1inames,
              show k + 1 + u = k + (u + 1) by omega]
            exact heq)
          rw [hstep]
          rfl

/-- C10: `Network::forward` is only safe when the supplied input slice is no
longer than the network's declared input list (equal-length name and handle
lists, unique names, equal-length layer slot lists — all construction
invariants): then it succeeds, and each supplied handle `i` replaces
`input_blobs_data[i]` and every layer slot named like the `i`-th declared
input with the same handle (a reference clone: handle equality, no data
copy); supplying more buffers than declared inputs panics with an
out-of-bounds index. -/
theorem forward_binding_spec (net : Network) (input : List Ref)
    (hlen : net.input_blobs_data.length = net.input_blob_names.length)
    (hnodup : net.input_blob_names.Nodup)
    (hlayers : ∀ m, m < net.layers.length →
      (net.layers.getD m default).input_blob_names.length =
        (net.layers.getD m default).input_blobs_data.length) :
    (input.length ≤ net.input_blob_names.length →
      ∃ n' l tr, net.forward input = some (n', l, tr) ∧
        (∀ t, t < input.length → n'.input_blobs_data.getD t 0 = input.getD t 0) ∧
        (∀ m b t, m < net.layers.length →
          b < (net.layers.getD m default).input_blob_names.length →
          t < input.length →
          (net.layers.getD m default).input_blob_names.getD b "" =
            net.input_blob_names.getD t "" →
          (n'.layers.getD m default).input_blobs_data.getD b 0 = input.getD t 0)) ∧
    (net.input_blob_names.length < input.length → net.forward input = none) := by
  constructor
  · intro hle
    obtain ⟨n', hbind, hnames, hdlen, hllen, hlprops, hframe, hmain, hslots⟩ :=
      bind_inputs_spec input net 0 hlen hnodup hlayers (by omega)
    have hff : forward_from_to n'.layers 0 n'.layers.length =
        some (forward_steps n'.layers n'.layers.length
          (List.range' 0 (n'.layers.length - 0))) := by
      unfold forward_from_to
      rw [if_pos (le_refl _)]
    refine ⟨n',
      (forward_steps n'.layers n'.layers.length (List.range' 0 (n'.layers.length - 0))).1,
      (forward_steps n'.layers n'.layers.length (List.range' 0 (n'.layers.length - 0))).2,
      ?_, ?_, ?_⟩
    · unfold Network.forward
      rw [hbind]
      show (match forward_from_to n'.layers 0 n'.layers.length with
        | some p => some (n', p.1, p.2)
        | none => none) = _
      rw [hff]
    · intro t ht
      have hstep := hmain t ht
      rwa [Nat.zero_add] at hstep
    · intro m b t hm hb ht heq
      exact (hslots m b hm hb).2 t ht (by rwa [Nat.zero_add])
  · intro hgt
    have hb := bind_inputs_overflow input net 0 (by omega) (by omega)
    unfold Network.forward
    rw [hb]

/-- C10 witness: a one-input network; supplying handle 9 rebinds both the
network-level slot and the layer slot named `x` to 9. -/
theorem forward_binding_spec_witness :
    ∃ n' l tr, Network.forward fixture_net [9] = some (n', l, tr) ∧
      n'.input_blobs_data.getD 0 0 = 9 ∧
      (n'.layers.getD 0 default).input_blobs_data.getD 0 0 = 9 := by
  have h := (forward_binding_spec fixture_net [9] (by decide) (by decide)
    (by intro m hm
        have h1 : fixture_net.layers.length = 1 := rfl
        rw [h1] at hm
        have h0 : m = 0 := by omega
        subst h0
        rfl)).1 (by decide)
  obtain ⟨n', l, tr, he, hdata, hslots⟩ := h
  exact ⟨n', l, tr, he, hdata 0 (by decide),
    hslots 0 0 0 (by decide) (by decide) (by decide) rfl⟩

/-! ### C2 (amended): uniqueness of registry keys and logging of duplicates -/

/-- A lookup misses exactly when the key is absent. -/
theorem lookup_eq_none_iff {β : Type} :
    ∀ (l : List (String × β)) (a : String), l.lookup a = none ↔ a ∉ l.map Prod.fst
  | [], a => by simp [List.lookup]
  | (k, v) :: t, a => by
    by_cases h : a = k
    · subst h
      simp [List.lookup]
    · have hbeq : (a == k) = false := beq_eq_false_iff_ne.mpr h
      simp only [List.lookup, hbeq, List.map_cons, List.mem_cons]
      rw [lookup_eq_none_iff t a]
      simp [h]

/-- A failed `contains_key` test means the key is absent. -/
theorem not_isSome_lookup {β : Type} (l : List (String × β)) (a : String)
    (h : ¬ (l.lookup a).isSome = true) : a ∉ l.map Prod.fst := by
  rw [← lookup_eq_none_iff]
  cases hc : l.lookup a with
  | none => rfl
  | some v => rw [hc] at h; simp at h

/-- A successful `contains_key` test means the key is present. -/
theorem isSome_lookup {β : Type} (l : List (String × β)) (a : String)
    (h : (l.lookup a).isSome = true) : a ∈ l.map Prod.fst := by
  by_contra hc
  rw [← lookup_eq_none_iff] at hc
  rw [hc] at h
  simp at h

/-- `init_input_blob` keeps registry keys duplicate-free. -/
theorem init_input_blob_keys_nodup (st : BuildState) (nm : String) (sh : List Nat)
    (h : (st.registry.map Prod.fst).Nodup) :
    ((init_input_blob st nm sh).registry.map Prod.fst).Nodup := by
  unfold init_input_blob
  by_cases hc : (st.registry.lookup nm).isSome = true
  · rw [if_pos hc]
    exact h
  · rw [if_neg hc]
    show ((st.registry ++ [(nm, st.heap.length, st.heap.length + 1)]).map Prod.fst).Nodup
    rw [List.map_append]
    rw [List.nodup_append]
    exact ⟨h, by simp, by simpa using not_isSome_lookup st.registry nm hc⟩

/-- `init_input_blob` only appends to the log. -/
theorem init_input_blob_log_mono (st : BuildState) (nm : String) (sh : List Nat)
    (msg : String) (h : msg ∈ st.net.log) :
    msg ∈ (init_input_blob st nm sh).net.log := by
  unfold init_input_blob
  by_cases hc : (st.registry.lookup nm).isSome = true
  · rw [if_pos hc]
    exact List.mem_append_left _ h
  · rw [if_neg hc]
    exact h

/-- `init_input_blob` only grows the registry key set. -/
theorem init_input_blob_keys_mono (st : BuildState) (nm : String) (sh : List Nat)
    (a : String) (h : a ∈ st.registry.map Prod.fst) :
    a ∈ (init_input_blob st nm sh).registry.map Prod.fst := by
  unfold init_input_blob
  by_cases hc : (st.registry.lookup nm).isSome = true
  · rw [if_pos hc]
    exact h
  · rw [if_neg hc]
    show a ∈ (st.registry ++ [(nm, st.heap.length, st.heap.length + 1)]).map Prod.fst
    rw [List.map_append]
    exact List.mem_append_left _ h

/-- A duplicate input name makes `init_input_blob` log its error message. -/
theorem init_input_blob_dup_logs (st : BuildState) (nm : String) (sh : List Nat)
    (h : nm ∈ st.registry.map Prod.fst) :
    ("Top blob " ++ nm ++ " produced by multiple sources.") ∈
      (init_input_blob st nm sh).net.log := by
  unfold init_input_blob
  have hc : (st.registry.lookup nm).isSome = true := by
    cases hl : st.registry.lookup nm with
    | none => exact absurd ((lookup_eq_none_iff st.registry nm).mp hl) (by simpa using h)
    | some v => rfl
  rw [if_pos hc]
  exact List.mem_append_right _ (by simp)

/-- A fresh input name ends up registered. -/
theorem init_input_blob_registers (st : BuildState) (nm : String) (sh : List Nat) :
    nm ∈ (init_input_blob st nm sh).registry.map Prod.fst := by
  unfold init_input_blob
  by_cases hc : (st.registry.lookup nm).isSome = true
  · rw [if_pos hc]
    exact isSome_lookup st.registry nm hc
  · rw [if_neg hc]
    show nm ∈ (st.registry ++ [(nm, st.heap.length, st.heap.length + 1)]).map Prod.fst
    rw [List.map_append]
    exact List.mem_append_right _ (by simp)

/-- The bottom-wiring fold only appends to the log. -/
theorem connect_bottoms_log_mono (registry : List (String × Ref × Ref)) (nm : String) :
    ∀ (bs : List String) (acc : Layer × List String) (msg : String),
      msg ∈ acc.2 → msg ∈ (connect_bottoms registry nm bs acc).2
  | [], acc, msg, h => h
  | b :: rest, acc, msg, h => by
    simp only [connect_bottoms]
    split
    · exact connect_bottoms_log_mono registry nm rest _ msg h
    · exact connect_bottoms_log_mono registry nm rest _ msg (List.mem_append_left _ h)

/-- The top-wiring fold keeps registry keys duplicate-free. -/
theorem connect_tops_keys_nodup :
    ∀ (tops : List String) (acc : List (String × Ref × Ref) × Heap),
      (acc.1.map Prod.fst).Nodup → ((connect_tops tops acc).1.map Prod.fst).Nodup
  | [], acc, h => h
  | t :: rest, acc, h => by
    simp only [connect_tops]
    split
    · exact connect_tops_keys_nodup rest acc h
    · next hc =>
      refine connect_tops_keys_nodup rest _ ?_
      show ((acc.1 ++ [(t, acc.2.length, acc.2.length + 1)]).map Prod.fst).Nodup
      rw [List.map_append, List.nodup_append]
      exact ⟨h, by simp, by simpa using not_isSome_lookup acc.1 t (by simpa using hc)⟩

/-- The weight-wiring fold only appends to the log. -/
theorem connect_weights_log_mono (nm : String) :
    ∀ (ws : List (WeightConfig × List Nat))
      (acc : Layer × List (String × Ref × Ref × Option ℚ × Option ℚ) × Heap × List String)
      (msg : String), msg ∈ acc.2.2.2 → msg ∈ (connect_weights nm ws acc).2.2.2
  | [], acc, msg, h => h
  | w :: rest, acc, msg, h => by
    obtain ⟨layer, wreg, heap, log⟩ := acc
    simp only [connect_weights]
    split
    · exact connect_weights_log_mono nm rest _ msg h
    · split
      · exact connect_weights_log_mono nm rest _ msg h
      · split
        · exact connect_weights_log_mono nm rest _ msg h
        · exact connect_weights_log_mono nm rest _ msg (List.mem_append_left _ h)

/-- `init_layer` keeps registry keys duplicate-free. -/
theorem init_layer_keys_nodup (st : BuildState) (lc : LayerConfig)
    (h : (st.registry.map Prod.fst).Nodup) :
    ((init_layer st lc).registry.map Prod.fst).Nodup :=
  connect_tops_keys_nodup lc.tops (st.registry, st.heap) h

/-- `init_layer` only appends to the log. -/
theorem init_layer_log_mono (st : BuildState) (lc : LayerConfig) (msg : String)
    (h : msg ∈ st.net.log) : msg ∈ (init_layer st lc).net.log :=
  connect_weights_log_mono lc.name lc.weight_specs _ msg
    (connect_bottoms_log_mono st.registry lc.name lc.bottoms _ msg h)

/-- `init_layer` never touches the network-level sharing metadata. -/
theorem init_layer_weights_eq (st : BuildState) (lc : LayerConfig) :
    (init_layer st lc).net.weights = st.net.weights ∧
      (init_layer st lc).net.weight_owners = st.net.weight_owners :=
  ⟨rfl, rfl⟩

/-- `init_input_blob` never touches the network-level sharing metadata. -/
theorem init_input_blob_weights_eq (st : BuildState) (nm : String) (sh : List Nat) :
    (init_input_blob st nm sh).net.weights = st.net.weights ∧
      (init_input_blob st nm sh).net.weight_owners = st.net.weight_owners := by
  unfold init_input_blob
  by_cases hc : (st.registry.lookup nm).isSome = true
  · rw [if_pos hc]
    exact ⟨rfl, rfl⟩
  · rw [if_neg hc]
    exact ⟨rfl, rfl⟩

/-- The input phase keeps registry keys duplicate-free. -/
theorem inputs_fold_keys_nodup :
    ∀ (l : List (String × List Nat)) (st : BuildState),
      (st.registry.map Prod.fst).Nodup →
      (((l.foldl (fun s p => init_input_blob s p.1 p.2) st).registry).map Prod.fst).Nodup
  | [], st, h => h
  | p :: rest, st, h => by
    rw [List.foldl_cons]
    exact inputs_fold_keys_nodup rest _ (init_input_blob_keys_nodup st p.1 p.2 h)

/-- The input phase only appends to the log. -/
theorem inputs_fold_log_mono :
    ∀ (l : List (String × List Nat)) (st : BuildState) (msg : String),
      msg ∈ st.net.log →
      msg ∈ (l.foldl (fun s p => init_input_blob s p.1 p.2) st).net.log
  | [], st, msg, h => h
  | p :: rest, st, msg, h => by
    rw [List.foldl_cons]
    exact inputs_fold_log_mono rest _ msg (init_input_blob_log_mono st p.1 p.2 msg h)

/-- The input phase only grows the registry key set. -/
theorem inputs_fold_keys_mono :
    ∀ (l : List (String × List Nat)) (st : BuildState) (a : String),
      a ∈ st.registry.map Prod.fst →
      a ∈ (l.foldl (fun s p => init_input_blob s p.1 p.2) st).registry.map Prod.fst
  | [], st, a, h => h
  | p :: rest, st, a, h => by
    rw [List.foldl_cons]
    exact inputs_fold_keys_mono rest _ a (init_input_blob_keys_mono st p.1 p.2 a h)

/-- If some remaining input's name is already registered, the input phase
logs an error. -/
theorem inputs_fold_hit :
    ∀ (l : List (String × List Nat)) (st : BuildState),
      (∃ q ∈ l, q.1 ∈ st.registry.map Prod.fst) →
      ∃ m, m ∈ (l.foldl (fun s p => init_input_blob s p.1 p.2) st).net.log
  | [], st, h => absurd h (by simp)
  | p :: rest, st, h => by
    obtain ⟨q, hq, hkey⟩ := h
    rw [List.foldl_cons]
    rw [List.mem_cons] at hq
    rcases hq with rfl | hq
    · exact ⟨"Top blob " ++ q.1 ++ " produced by multiple sources.",
        inputs_fold_log_mono rest _ _ (init_input_blob_dup_logs st q.1 q.2 hkey)⟩
    · exact inputs_fold_hit rest _ ⟨q, hq, init_input_blob_keys_mono st p.1 p.2 q.1 hkey⟩

/-- A duplicate among the declared input names makes the input phase log an
error. -/
theorem inputs_fold_dup :
    ∀ (l : List (String × List Nat)) (st : BuildState),
      ¬ (l.map Prod.fst).Nodup →
      ∃ m, m ∈ (l.foldl (fun s p => init_input_blob s p.1 p.2) st).net.log
  | [], st, h => absurd (by simp) h
  | p :: rest, st, h => by
    rw [List.foldl_cons]
    by_cases hd : (rest.map Prod.fst).Nodup
    · have hp : p.1 ∈ rest.map Prod.fst := by
        by_contra hp
        exact h (by rw [List.map_cons]; exact List.nodup_cons.mpr ⟨hp, hd⟩)
      obtain ⟨q, hq, hq1⟩ : ∃ q ∈ rest, q.1 = p.1 := by
        rw [List.mem_map] at hp
        obtain ⟨q, hq, e⟩ := hp
        exact ⟨q, hq, e⟩
      exact inputs_fold_hit rest _
        ⟨q, hq, by rw [hq1]; exact init_input_blob_registers st p.1 p.2⟩
    · exact inputs_fold_dup rest _ hd

/-- The layer phase keeps registry keys duplicate-free. -/
theorem layers_fold_keys_nodup :
    ∀ (lcs : List LayerConfig) (st : BuildState),
      (st.registry.map Prod.fst).Nodup →
      ((lcs.foldl init_layer st).registry.map Prod.fst).Nodup
  | [], st, h => h
  | lc :: rest, st, h => by
    rw [List.foldl_cons]
    exact layers_fold_keys_nodup rest _ (init_layer_keys_nodup st lc h)

/-- The layer phase only appends to the log. -/
theorem layers_fold_log_mono :
    ∀ (lcs : List LayerConfig) (st : BuildState) (msg : String),
      msg ∈ st.net.log → msg ∈ (lcs.foldl init_layer st).net.log
  | [], st, msg, h => h
  | lc :: rest, st, msg, h => by
    rw [List.foldl_cons]
    exact layers_fold_log_mono rest _ msg (init_layer_log_mono st lc msg h)

/-- The input phase never touches the network-level sharing metadata. -/
theorem inputs_fold_weights_eq :
    ∀ (l : List (String × List Nat)) (st : BuildState),
      (l.foldl (fun s p => init_input_blob s p.1 p.2) st).net.weights = st.net.weights ∧
      (l.foldl (fun s p => init_input_blob s p.1 p.2) st).net.weight_owners =
        st.net.weight_owners
  | [], st => ⟨rfl, rfl⟩
  | p :: rest, st => by
    rw [List.foldl_cons]
    have h1 := init_input_blob_weights_eq st p.1 p.2
    have h2 := inputs_fold_weights_eq rest (init_input_blob st p.1 p.2)
    exact ⟨h2.1.trans h1.1, h2.2.trans h1.2⟩

/-- The layer phase never touches the network-level sharing metadata. -/
theorem layers_fold_weights_eq :
    ∀ (lcs : List LayerConfig) (st : BuildState),
      (lcs.foldl init_layer st).net.weights = st.net.weights ∧
      (lcs.foldl init_layer st).net.weight_owners = st.net.weight_owners
  | [], st => ⟨rfl, rfl⟩
  | lc :: rest, st => by
    rw [List.foldl_cons]
    have h2 := layers_fold_weights_eq rest (init_layer st lc)
    exact ⟨h2.1, h2.2⟩

/-- Construction never populates the sharing metadata: after the whole build,
`weights` and `weight_owners` are the empty lists they started as. -/
theorem build_layers_weights_nil (cfg : NetworkConfig) :
    (build_layers cfg).net.weights = [] ∧ (build_layers cfg).net.weight_owners = [] := by
  unfold build_layers build_inputs
  have h1 := inputs_fold_weights_eq (cfg.inputs.zip cfg.input_shapes)
    ⟨Network.empty, [], [], []⟩
  have h2 := layers_fold_weights_eq cfg.layers
    ((cfg.inputs.zip cfg.input_shapes).foldl (fun s p => init_input_blob s p.1 p.2)
      ⟨Network.empty, [], [], []⟩)
  refine ⟨?_, ?_⟩
  · rw [h2.1, h1.1]
    rfl
  · rw [h2.2, h1.2]
    rfl

/-- Construction is total: since the sharing metadata is empty, the
`share_weights` pass cannot panic and `from_config` always returns the built
network. -/
theorem from_config_eq (cfg : NetworkConfig) :
    from_config cfg =
      some ({ build_outputs cfg with
          weights := [], registry := (build_layers cfg).registry },
        (build_layers cfg).heap) := by
  have hw : (build_outputs cfg).weights = [] := (build_layers_weights_nil cfg).1
  unfold from_config
  rw [hw]
  rfl

/-- C2 (amended): building with a duplicate input name does not fail — a
network is returned — but no buffer is registered twice under any name (the
registry keys of the returned network are duplicate-free), and whenever the
declared (shape-paired) input names contain a duplicate, an error has been
logged. -/
theorem from_config_registry_nodup (cfg : NetworkConfig) (net : Network) (heap : Heap)
    (h : from_config cfg = some (net, heap)) :
    (net.registry.map Prod.fst).Nodup ∧
      (¬ ((cfg.inputs.zip cfg.input_shapes).map Prod.fst).Nodup → net.log ≠ []) := by
  rw [from_config_eq cfg] at h
  have h2 := Option.some.inj h
  have hnet : net = { build_outputs cfg with
      weights := [], registry := (build_layers cfg).registry } :=
    (congrArg Prod.fst h2).symm
  subst hnet
  constructor
  · show ((build_layers cfg).registry.map Prod.fst).Nodup
    unfold build_layers build_inputs
    exact layers_fold_keys_nodup cfg.layers _
      (inputs_fold_keys_nodup (cfg.inputs.zip cfg.input_shapes) _ (by simp))
  · intro hdup
    show (build_layers cfg).net.log ≠ []
    unfold build_layers build_inputs
    obtain ⟨m, hm⟩ := inputs_fold_dup (cfg.inputs.zip cfg.input_shapes)
      ⟨Network.empty, [], [], []⟩ hdup
    exact List.ne_nil_of_mem (layers_fold_log_mono cfg.layers _ m hm)

/-- C2 (amended) witness: the duplicate-input configuration. -/
theorem from_config_registry_nodup_witness :
    ∃ net heap, from_config dup_input_config = some (net, heap) ∧
      (net.registry.map Prod.fst).Nodup ∧
      (¬ ((dup_input_config.inputs.zip dup_input_config.input_shapes).map
          Prod.fst).Nodup → net.log ≠ []) :=
  ⟨_, _, from_config_eq dup_input_config,
    from_config_registry_nodup dup_input_config _ _ (from_config_eq dup_input_config)⟩

end Juice
